import Mathlib

/-!
Verification development for the COSIN-K solitaire core
(`src/model`: card, pile, state, move, history, engine, rules/base,
rules/klondike).  Python classes become Lean structures; in-place
mutation becomes explicit state passing; Python ints become `Int`
(`Nat` where the source value is a length).  Each definition mirrors
the function of the same name in the source.
-/

namespace Cosin

/-- `Suit` enum from `model/card.py`. -/
inductive Suit where
  | hearts
  | diamonds
  | clubs
  | spades
deriving DecidableEq, Repr, Inhabited

/-- Python iterates `Suit` in declaration order (`for suit in Suit`). -/
def suitList : List Suit := [Suit.hearts, Suit.diamonds, Suit.clubs, Suit.spades]

/-- `Suit.name` in Python (`HEARTS`, ...). -/
def Suit.pyName : Suit → String
  | Suit.hearts => "HEARTS"
  | Suit.diamonds => "DIAMONDS"
  | Suit.clubs => "CLUBS"
  | Suit.spades => "SPADES"

/-- `Card` dataclass: suit, rank (the `Rank` enum's `value`, 1..13), face
orientation.  `Rank.ACE = 1`, `Rank.KING = 13`. -/
structure Card where
  suit : Suit
  rank : Nat
  face_up : Bool
deriving DecidableEq, Repr, Inhabited

/-- `Card.is_red`: Hearts and Diamonds are red.  The source compares the
derived `color` strings ("red"/"black"); two cards have equal `color`
exactly when their `is_red` flags agree. -/
def Card.is_red (c : Card) : Bool :=
  c.suit == Suit.hearts || c.suit == Suit.diamonds

/-- `Card.make_face_up`. -/
def Card.make_face_up (c : Card) : Card :=
  if c.face_up then c else ⟨c.suit, c.rank, true⟩

/-- `Card.make_face_down`. -/
def Card.make_face_down (c : Card) : Card :=
  if c.face_up then ⟨c.suit, c.rank, false⟩ else c

/-- The identity of a card irrespective of orientation: its (suit, rank)
pair, used to state card conservation. -/
def cardKey (c : Card) : Suit × Nat := (c.suit, c.rank)

/-- `Pile` from `model/pile.py`: a named ordered list of cards.  Index 0
is the bottom of the pile, the end of the list is the top. -/
structure Pile where
  name : String
  cards : List Card
deriving DecidableEq, Repr, Inhabited

/-- `Pile.is_empty`. -/
def Pile.is_empty (p : Pile) : Bool := p.cards.isEmpty

/-- `Pile.size` / `len(pile)`. -/
def Pile.size (p : Pile) : Nat := p.cards.length

/-- `Pile.top`: the last element, or `None` when empty. -/
def Pile.top (p : Pile) : Option Card := p.cards.getLast?

/-- `Pile.peek(n)`: the top `n` cards without removal; `[]` for `n <= 0`,
the whole pile when `n` exceeds the size (Python slice `self[-n:]`
clamps). -/
def Pile.peek (p : Pile) (n : Int) : List Card :=
  if n ≤ 0 then []
  else p.cards.drop (p.cards.length - n.toNat)

/-- `Pile.take(n)`: returns the removed cards and the remaining pile.
Source:
`if n <= 0 or not self: return []` (pile unchanged), otherwise
`taken = self[-n:]; del self[-n:]` — Python slices clamp, so when
`n > len(self)` the whole pile is removed and returned. -/
def Pile.take (p : Pile) (n : Int) : List Card × Pile :=
  if n ≤ 0 || p.cards.isEmpty then ([], p)
  else
    let k := min n.toNat p.cards.length
    (p.cards.drop (p.cards.length - k),
     { p with cards := p.cards.take (p.cards.length - k) })

/-- `Pile.add(cards)`: append on top, preserving order. -/
def Pile.add (p : Pile) (cs : List Card) : Pile :=
  { p with cards := p.cards ++ cs }

/-- `Pile.face_up_count`: consecutive face-up cards counted from the
top, stopping at the first face-down card. -/
def Pile.face_up_count (p : Pile) : Nat :=
  (p.cards.reverse.takeWhile (fun c => c.face_up)).length

/-- `Move` dataclass from `model/move.py` (timestamp omitted: wall-clock
time does not enter any claim). -/
structure Move where
  from_pile : String
  to_pile : String
  cards : List Card
  from_index : Int
  flipped_cards : List (String × Nat)
  score_delta : Int
deriving DecidableEq, Repr, Inhabited

/-- `GameState` from `model/state.py`: the pile mapping (a Python dict,
modelled as an association list in insertion order), the distinguished
stock and waste piles, and the counters.  Listeners are omitted (pure
notification plumbing, excluded from `copy`). -/
structure GameState where
  piles : List (String × Pile)
  stock : Pile
  waste : Pile
  score : Int
  moves_count : Int
  time_elapsed : Int
  selected_pile : Option String
deriving DecidableEq, Repr, Inhabited

/-- `GameState.get_pile(name)`: "stock" and "waste" resolve to the
distinguished piles, anything else through the dict (`None` when
absent). -/
def GameState.get_pile (st : GameState) (name : String) : Option Pile :=
  if name = "stock" then some st.stock
  else if name = "waste" then some st.waste
  else (st.piles.find? (fun kv => kv.1 == name)).map (fun kv => kv.2)

/-- Writing a pile back under its name, mirroring how the Python engine
mutates the pile objects held by the state in place. -/
def GameState.set_pile (st : GameState) (name : String) (p : Pile) : GameState :=
  if name = "stock" then { st with stock := { p with name := name } }
  else if name = "waste" then { st with waste := { p with name := name } }
  else { st with piles :=
          st.piles.map (fun kv => if kv.1 == name then (kv.1, { p with name := name }) else kv) }

/-- The multiset of (suit, rank) identities of every card in the state:
stock, waste, and every named pile. -/
def GameState.allCards (st : GameState) : Multiset (Suit × Nat) :=
  (st.stock.cards.map cardKey : Multiset (Suit × Nat)) +
  (st.waste.cards.map cardKey : Multiset (Suit × Nat)) +
  (st.piles.map (fun kv => ((kv.2.cards.map cardKey : List (Suit × Nat)) : Multiset (Suit × Nat)))).sum

/-- `PileType` enum from `rules/base.py`. -/
inductive PileType where
  | stock
  | waste
  | tableau
  | foundation
  | freecell
  | reserve
deriving DecidableEq, Repr

/-- Python's `str.startswith`, stated over the character sequences (the
built-in `String.startsWith` is semantically the same but reduces
through platform-word internals). -/
def strStartsWith (s pre : String) : Bool := pre.data.isPrefixOf s.data

/-- `KlondikeRules.get_pile_type`: classification purely by name. -/
def get_pile_type (name : String) : PileType :=
  if strStartsWith name "tableau_" then PileType.tableau
  else if strStartsWith name "foundation_" then PileType.foundation
  else if name = "stock" then PileType.stock
  else if name = "waste" then PileType.waste
  else PileType.reserve

/-- `KlondikeRules` instance data: only the draw-three flag. -/
structure KlondikeRules where
  draw_three : Bool
deriving DecidableEq, Repr

/-- `KlondikeRules._can_build_tableau(pile, cards)`: empty card list is
rejected; empty target accepts a run starting with a King; otherwise the
target's top and the run's first card must differ in color, with the top
rank one above the first card's rank. -/
def can_build_tableau (pile : Pile) (cards : List Card) : Bool :=
  match cards with
  | [] => false
  | first :: _ =>
    match pile.top with
    | none => first.rank == 13
    | some top => (top.is_red != first.is_red) && (top.rank == first.rank + 1)

/-- `KlondikeRules._can_build_foundation(pile, cards)`: full foundation
(13 cards) rejects; exactly one card required; empty target wants an
Ace; otherwise same suit and rank one above the target's top. -/
def can_build_foundation (pile : Pile) (cards : List Card) : Bool :=
  if 13 ≤ pile.size then false
  else
    match cards with
    | [c] =>
      match pile.top with
      | none => c.rank == 1
      | some top => (top.suit == c.suit) && (c.rank == top.rank + 1)
    | _ => false

/-- `RuleSet.can_drop`: dispatch on the target pile's type through
`build_rules`; Klondike registers rules only for tableau and foundation,
every other type has no rule and rejects. -/
def can_drop (target : Pile) (cards : List Card) : Bool :=
  match get_pile_type target.name with
  | PileType.tableau => can_build_tableau target cards
  | PileType.foundation => can_build_foundation target cards
  | _ => false

/-- `KlondikeRules.can_take(state, pile_name, count)`.  `if not pile`
in the source is Python truthiness of a list subclass: it fires both
when the pile is absent and when it is empty. -/
def KlondikeRules.can_take (_r : KlondikeRules) (st : GameState)
    (name : String) (count : Int) : Bool :=
  match st.get_pile name with
  | none => false
  | some pile =>
    if pile.cards.isEmpty then false
    else
      match get_pile_type name with
      | PileType.tableau => decide (count ≤ (pile.face_up_count : Int))
      | PileType.waste => !pile.is_empty && (count == 1)
      | _ => false

/-- `RuleSet._validate_basic`: both piles exist, source non-empty, card
count at most the source size, source differs from destination. -/
def validate_basic (st : GameState) (m : Move) : Bool :=
  match st.get_pile m.from_pile, st.get_pile m.to_pile with
  | some source, some _ =>
    !source.is_empty && decide (m.cards.length ≤ source.size) && (m.from_pile != m.to_pile)
  | _, _ => false

/-- The pairwise loop shared by `_validate_tableau_sequence` and
`_is_valid_sequence`: adjacent cards must alternate color, with each
card's rank one above its successor's. -/
def pairwise_desc_alt : List Card → Bool
  | [] => true
  | [_] => true
  | a :: b :: rest =>
    (a.is_red != b.is_red) && (a.rank == b.rank + 1) && pairwise_desc_alt (b :: rest)

/-- `KlondikeRules._validate_tableau_sequence`: only constrains moves
whose source is a tableau pile; the lifted count must fit in the face-up
run and the lifted cards (peeked from the source) must chain. -/
def validate_tableau_sequence (st : GameState) (m : Move) : Bool :=
  if !(strStartsWith m.from_pile "tableau_") then true
  else
    match st.get_pile m.from_pile with
    | none => false
    | some source =>
      if source.face_up_count < m.cards.length then false
      else pairwise_desc_alt (source.peek (m.cards.length : Int))

/-- `RuleSet.can_move`: basic checks, then `can_take`, then `can_drop`
on the target, then the variant validators (for Klondike, exactly
`_validate_tableau_sequence`). -/
def KlondikeRules.can_move (r : KlondikeRules) (st : GameState) (m : Move) : Bool :=
  if !(validate_basic st m) then false
  else if !(r.can_take st m.from_pile (m.cards.length : Int)) then false
  else if !(match st.get_pile m.to_pile with
            | some target => can_drop target m.cards
            | none => false) then false
  else validate_tableau_sequence st m

/-- `KlondikeRules.can_draw`: stock or waste non-empty. -/
def KlondikeRules.can_draw (_r : KlondikeRules) (st : GameState) : Bool :=
  !st.stock.is_empty || !st.waste.is_empty

/-- `KlondikeRules.get_draw_count`: 3 in the draw-three variant, else 1. -/
def KlondikeRules.get_draw_count (r : KlondikeRules) : Nat :=
  if r.draw_three then 3 else 1

/-- `KlondikeRules.score_recycle`. -/
def KlondikeRules.score_recycle (r : KlondikeRules) (_st : GameState) : Int :=
  if r.draw_three then -20 else -10

/-- `KlondikeRules.score_draw`: always 0. -/
def KlondikeRules.score_draw (_r : KlondikeRules) (_st : GameState)
    (_cards : List Card) : Int := 0

/-- `RuleSet.calculate_score`: the base-class implementation, which
`KlondikeRules` does not override, always returns 0.  (This is the
method the engine calls from `_execute_move`.) -/
def KlondikeRules.calculate_score (_r : KlondikeRules) (_st : GameState)
    (_m : Move) : Int := 0

/-- `KlondikeRules.get_flipped_cards`: the newly exposed top card of a
tableau source when it is face-down. -/
def KlondikeRules.get_flipped_cards (_r : KlondikeRules)
    (previous_state : GameState) (m : Move) : List (String × Nat) :=
  match get_pile_type m.from_pile with
  | PileType.tableau =>
    match previous_state.get_pile m.from_pile with
    | none => []
    | some source =>
      if m.cards.length < source.size then
        let remaining := source.size - m.cards.length
        if 0 < remaining then
          match source.cards.get? (remaining - 1) with
          | some top_card => if !top_card.face_up then [(m.from_pile, remaining - 1)] else []
          | none => []
        else []
      else []
  | _ => []

/-- `KlondikeRules.score_move(state, move, previous_state)`: +5 per
flipped card, +10 landing on a foundation (overwritten to -15 when also
leaving a foundation), -15 foundation to tableau. -/
def KlondikeRules.score_move (r : KlondikeRules) (_st : GameState) (m : Move)
    (previous_state : Option GameState) : Int :=
  let base : Int :=
    match previous_state with
    | some prev => 5 * (r.get_flipped_cards prev m).length
    | none => 0
  if get_pile_type m.to_pile = PileType.foundation then
    if get_pile_type m.from_pile = PileType.foundation then -15 else base + 10
  else if get_pile_type m.from_pile = PileType.foundation ∧
          get_pile_type m.to_pile = PileType.tableau then -15
  else base

/-- `KlondikeRules.check_win`: every foundation holds exactly 13 cards. -/
def KlondikeRules.check_win (_r : KlondikeRules) (st : GameState) : Bool :=
  suitList.all (fun s =>
    match (st.piles.find? (fun kv => kv.1 == ("foundation_" ++ s.pyName))).map (fun kv => kv.2) with
    | none => false
    | some pile => pile.size == 13)

/-- The inner dealing loop of `KlondikeRules.deal`: card at `row` is
re-created with `face_up := (row == col)`. -/
def dealFlip (col : Nat) : Nat → List Card → List Card
  | _, [] => []
  | row, c :: cs => ⟨c.suit, c.rank, row == col⟩ :: dealFlip col (row + 1) cs

/-- Name of tableau column `col`. -/
def tabName (col : Nat) : String := "tableau_" ++ toString col

/-- Name of the foundation for suit `s`. -/
def foundationName (s : Suit) : String := "foundation_" ++ s.pyName

/-- Tableau column `col` of the deal: cards `tri(col) .. tri(col)+col`
of the deck (the Python loop consumes the deck sequentially, so column
`col` starts at index `col*(col+1)/2`), only the last face-up. -/
def dealColumn (deck : List Card) (col : Nat) : Pile :=
  ⟨tabName col, dealFlip col 0 ((deck.drop (col * (col + 1) / 2)).take (col + 1))⟩

/-- `KlondikeRules.deal`: seven tableau columns of 1..7 cards followed
by the four empty foundations, in `Suit` declaration order. -/
def KlondikeRules.deal (_r : KlondikeRules) (deck : List Card) : List (String × Pile) :=
  [ (tabName 0, dealColumn deck 0), (tabName 1, dealColumn deck 1),
    (tabName 2, dealColumn deck 2), (tabName 3, dealColumn deck 3),
    (tabName 4, dealColumn deck 4), (tabName 5, dealColumn deck 5),
    (tabName 6, dealColumn deck 6) ] ++
  suitList.map (fun s => (foundationName s, (⟨foundationName s, []⟩ : Pile)))

/-- `HistoryManager` from `model/history.py`: entries are (state,
originating move) pairs (the wall-clock timestamp is omitted), with the
current-position cursor (`-1` when empty) and the capacity limit. -/
structure HistoryManager where
  entries : List (GameState × Option Move)
  current : Int
  limit : Nat
deriving DecidableEq, Repr, Inhabited

/-- `HistoryManager.can_undo`: strictly after the initial entry. -/
def HistoryManager.can_undo (h : HistoryManager) : Bool := decide (0 < h.current)

/-- `HistoryManager.can_redo`: strictly before the newest entry. -/
def HistoryManager.can_redo (h : HistoryManager) : Bool :=
  decide (h.current < (h.entries.length : Int) - 1)

/-- `HistoryManager.push(state, move)`: drop everything after the
cursor, append (a copy of) the new state, advance the cursor, and when
the limit is exceeded evict the oldest entry, moving the cursor down
(never below -1). -/
def HistoryManager.push (h : HistoryManager) (st : GameState) (m : Option Move) :
    HistoryManager :=
  if h.limit < (h.entries.take (h.current + 1).toNat ++ [(st, m)]).length then
    { h with entries := (h.entries.take (h.current + 1).toNat ++ [(st, m)]).drop 1,
             current := max (-1) (h.current + 1 - 1) }
  else
    { h with entries := h.entries.take (h.current + 1).toNat ++ [(st, m)],
             current := h.current + 1 }

/-- `HistoryManager.undo`: `None` (history untouched) unless `can_undo`;
otherwise decrement the cursor and return (a copy of) that entry's
state.  The Python method mutates the manager and returns the state;
here both results are returned. -/
def HistoryManager.undo (h : HistoryManager) : Option GameState × HistoryManager :=
  if !h.can_undo then (none, h)
  else
    let h2 := { h with current := h.current - 1 }
    ((h2.entries.get? h2.current.toNat).map (fun ent => ent.1), h2)

/-- `HistoryManager.redo`: symmetric to `undo` at the newest end. -/
def HistoryManager.redo (h : HistoryManager) : Option GameState × HistoryManager :=
  if !h.can_redo then (none, h)
  else
    let h2 := { h with current := h.current + 1 }
    ((h2.entries.get? h2.current.toNat).map (fun ent => ent.1), h2)

/-- `HistoryManager.clear`. -/
def HistoryManager.clear (h : HistoryManager) : HistoryManager :=
  { h with entries := [], current := -1 }

/-- `SolitaireEngine`: rules, optional current state, history (created
with `limit=5000`).  Event listeners are omitted: `_notify` only calls
callbacks and never touches the state or history. -/
structure Engine where
  rules : KlondikeRules
  state : Option GameState
  history : HistoryManager
deriving DecidableEq, Repr

/-- `SolitaireEngine.__init__`. -/
def Engine.init (rules : KlondikeRules) : Engine :=
  { rules := rules, state := none, history := { entries := [], current := -1, limit := 5000 } }

/-- The initial `GameState` assembled by `SolitaireEngine.new_game`:
dealt piles, the remaining `deck[dealt_count:]` as the stock, an empty
waste, zero counters. -/
def newGameState (r : KlondikeRules) (deck : List Card) : GameState :=
  let dealt := r.deal deck
  let dealt_count := (dealt.map (fun kv => kv.2.size)).sum
  { piles := dealt
    stock := ⟨"stock", deck.drop dealt_count⟩
    waste := ⟨"waste", []⟩
    score := 0
    moves_count := 0
    time_elapsed := 0
    selected_pile := none }

/-- `SolitaireEngine.new_game(seed)` after the deck has been produced:
the deterministic shuffle is abstracted into the `deck` argument; the
state is installed and pushed onto the cleared history. -/
def Engine.new_game (e : Engine) (deck : List Card) : Engine :=
  let st := newGameState e.rules deck
  { e with state := some st, history := e.history.clear.push st none }

/-- The candidate `Move` that `SolitaireEngine.move` builds for the
legality check: the cards list is left empty (the source comments that
they are to be filled in during execution). -/
def moveCandidate (from_pile to_pile : String) : Move :=
  { from_pile := from_pile, to_pile := to_pile, cards := [], from_index := -1,
    flipped_cards := [], score_delta := 0 }

/-- `SolitaireEngine._execute_move`: copy the state, take `count` cards
from the source, append them to the target, add the score delta from
`calculate_score` (the base-class method, which returns 0), bump the
move counter.  `none` models the `ValueError` on a missing pile. -/
def Engine.execute_move (e : Engine) (st : GameState)
    (from_pile to_pile : String) (count : Int) : Option (GameState × Move) :=
  match st.get_pile from_pile, st.get_pile to_pile with
  | some source, some _ =>
    let from_index : Int := (source.size : Int) - count
    let (cards, source2) := source.take count
    let st2 := st.set_pile from_pile source2
    let st3 :=
      match st2.get_pile to_pile with
      | some target => st2.set_pile to_pile (target.add cards)
      | none => st2
    let move_for_score : Move :=
      { from_pile := from_pile, to_pile := to_pile, cards := cards,
        from_index := from_index, flipped_cards := [], score_delta := 0 }
    let score_delta := e.rules.calculate_score st move_for_score
    let st4 := { st3 with score := st3.score + score_delta,
                          moves_count := st3.moves_count + 1 }
    let mv : Move :=
      { from_pile := from_pile, to_pile := to_pile, cards := cards,
        from_index := from_index, flipped_cards := [], score_delta := score_delta }
    some (st4, mv)
  | _, _ => none

/-- `SolitaireEngine.move(from_pile, to_pile, count)`: reject when no
game is active or when `can_move` rejects the empty-cards candidate;
otherwise execute, commit, and push.  Returns the success flag and the
engine after the call. -/
def Engine.move (e : Engine) (from_pile to_pile : String) (count : Int) :
    Bool × Engine :=
  match e.state with
  | none => (false, e)
  | some st =>
    if !(e.rules.can_move st (moveCandidate from_pile to_pile)) then (false, e)
    else
      match e.execute_move st from_pile to_pile count with
      | none => (false, e)
      | some (st2, mv) =>
        (true, { e with state := some st2, history := e.history.push st2 (some mv) })

/-- `SolitaireEngine._recycle_stock(new_state)`: fail when the waste is
empty; otherwise move all waste cards, face-down, onto the stock, push
the resulting state with a recycle `Move` whose `score_delta` is the
recycle penalty (the state's own score is not modified), and report the
new state and history.  `old` is `self._state`, used for the penalty. -/
def Engine.recycle_stock (e : Engine) (old : GameState) (ns : GameState) :
    Option (GameState × HistoryManager) :=
  if ns.waste.cards.isEmpty then none
  else
    let cards := ((ns.waste.take (ns.waste.size : Int)).1).map Card.make_face_down
    let ns2 := { ns with waste := (ns.waste.take (ns.waste.size : Int)).2,
                         stock := ns.stock.add cards }
    let mv : Move :=
      { from_pile := "waste", to_pile := "stock", cards := cards, from_index := 0,
        flipped_cards := (List.range cards.length).map (fun i => ("waste", i)),
        score_delta := e.rules.score_recycle old }
    some (ns2, e.history.push ns2 (some mv))

/-- The body of `SolitaireEngine.draw` with explicit recursion fuel:
the Python method calls itself once after a successful recycle, and the
recursive call always finds a non-empty stock, so fuel 2 replays the
source exactly (the fuel-0 fallback is unreachable from `Engine.draw`). -/
def Engine.drawGo : Nat → Engine → Bool × Engine
  | 0, e => (false, e)
  | Nat.succ fuel, e =>
    match e.state with
    | none => (false, e)
    | some st =>
      if !(e.rules.can_draw st) then (false, e)
      else
        let draw_count := e.rules.get_draw_count
        if st.stock.is_empty then
          match e.recycle_stock st st with
          | none => (false, e)
          | some (rst, h2) =>
            Engine.drawGo fuel { e with state := some rst, history := h2 }
        else
          let actual_count := min draw_count st.stock.size
          let cards := ((st.stock.take (actual_count : Int)).1).map Card.make_face_up
          let st2 := { st with stock := (st.stock.take (actual_count : Int)).2,
                               waste := st.waste.add cards,
                               moves_count := st.moves_count + 1 }
          let mv : Move :=
            { from_pile := "stock", to_pile := "waste", cards := cards,
              from_index := (((st.stock.take (actual_count : Int)).2).size : Int),
              flipped_cards := [], score_delta := e.rules.score_draw st cards }
          (true, { e with state := some st2, history := e.history.push st2 (some mv) })

/-- `SolitaireEngine.draw()`. -/
def Engine.draw (e : Engine) : Bool × Engine := Engine.drawGo 2 e

/-- `SolitaireEngine.undo()`: guarded by an active state and
`history.can_undo`; on success install the returned snapshot. -/
def Engine.undo (e : Engine) : Bool × Engine :=
  match e.state with
  | none => (false, e)
  | some _ =>
    if !e.history.can_undo then (false, e)
    else
      match e.history.undo with
      | (some prev, h2) => (true, { e with state := some prev, history := h2 })
      | (none, h2) => (false, { e with history := h2 })

/-- `SolitaireEngine.redo()`. -/
def Engine.redo (e : Engine) : Bool × Engine :=
  match e.state with
  | none => (false, e)
  | some _ =>
    if !e.history.can_redo then (false, e)
    else
      match e.history.redo with
      | (some nxt, h2) => (true, { e with state := some nxt, history := h2 })
      | (none, h2) => (false, { e with history := h2 })

/-- Engine configurations reachable from `new_game` on a given deck by
the public mutating operations. -/
inductive Reachable (r : KlondikeRules) (deck : List Card) : Engine → Prop where
  | base : Reachable r deck ((Engine.init r).new_game deck)
  | move (e : Engine) (f t : String) (n : Int) :
      Reachable r deck e → Reachable r deck (e.move f t n).2
  | draw (e : Engine) : Reachable r deck e → Reachable r deck e.draw.2
  | undo (e : Engine) : Reachable r deck e → Reachable r deck e.undo.2
  | redo (e : Engine) : Reachable r deck e → Reachable r deck e.redo.2

/-- The card multiset of a deck. -/
def deckKeys (deck : List Card) : Multiset (Suit × Nat) :=
  (deck.map cardKey : List (Suit × Nat))

/-! Concrete inputs used by the closed theorems below. -/

/-- The thirteen rank values, `Rank.ACE.value .. Rank.KING.value`. -/
def rankList : List Nat := [1, 2, 3, 4, 5, 6, 7, 8, 9, 10, 11, 12, 13]

/-- The unshuffled 52-card deck in `_create_shuffled_deck` order (suit
outer loop, rank inner loop), all face-down.  Its first card is the Ace
of Hearts, so the deal puts that card, face-up, alone on `tableau_0`. -/
def standardDeck : List Card :=
  (suitList.map (fun s => rankList.map (fun v => (⟨s, v, false⟩ : Card)))).flatten

/-- The initial state of a game dealt from `standardDeck`. -/
def demoState : GameState := newGameState ⟨false⟩ standardDeck

/-- The engine straight after `new_game` on `standardDeck`. -/
def demoEngine : Engine := (Engine.init ⟨false⟩).new_game standardDeck

/-- A minimal game state: no named piles, empty stock and waste. -/
def emptyState : GameState :=
  { piles := [], stock := ⟨"stock", []⟩, waste := ⟨"waste", []⟩,
    score := 0, moves_count := 0, time_elapsed := 0, selected_pile := none }

/-- A state whose stock is empty while the waste holds five face-up
cards: the recycle scenario of the spec. -/
def recDemoState : GameState :=
  { piles := [],
    stock := ⟨"stock", []⟩,
    waste := ⟨"waste", [⟨Suit.hearts, 5, true⟩, ⟨Suit.clubs, 7, true⟩,
                        ⟨Suit.diamonds, 2, true⟩, ⟨Suit.spades, 11, true⟩,
                        ⟨Suit.hearts, 9, true⟩]⟩,
    score := 0, moves_count := 0, time_elapsed := 0, selected_pile := none }

/-- An active single-draw engine sitting on `recDemoState`. -/
def recDemoEngine : Engine :=
  { rules := ⟨false⟩, state := some recDemoState,
    history := { entries := [], current := -1, limit := 5000 } }

/-! Helper lemmas. -/

/-- `cardKey` ignores orientation: `make_face_up`. -/
theorem cardKey_make_face_up (c : Card) : cardKey c.make_face_up = cardKey c := by
  unfold Card.make_face_up
  split <;> rfl

/-- `cardKey` ignores orientation: `make_face_down`. -/
theorem cardKey_make_face_down (c : Card) : cardKey c.make_face_down = cardKey c := by
  unfold Card.make_face_down
  split <;> rfl

/-- Keys of a mass `make_face_up`. -/
theorem map_key_face_up (l : List Card) :
    (l.map Card.make_face_up).map cardKey = l.map cardKey := by
  induction l with
  | nil => rfl
  | cons c cs ih => simp [cardKey_make_face_up, ih]

/-- Keys of a mass `make_face_down`. -/
theorem map_key_face_down (l : List Card) :
    (l.map Card.make_face_down).map cardKey = l.map cardKey := by
  induction l with
  | nil => rfl
  | cons c cs ih => simp [cardKey_make_face_down, ih]

/-- `take` splits the pile: remaining cards followed by taken cards
reassemble the original pile. -/
theorem take_append (p : Pile) (n : Int) :
    (p.take n).2.cards ++ (p.take n).1 = p.cards := by
  unfold Pile.take
  split
  · simp
  · simp [List.take_append_drop]

/-- `take` with a positive in-range count is drop/take at the split
point. -/
theorem take_of_le (p : Pile) (n : Nat) (h0 : 0 < n) (hle : n ≤ p.cards.length) :
    p.take (n : Int)
      = (p.cards.drop (p.cards.length - n),
         { p with cards := p.cards.take (p.cards.length - n) }) := by
  unfold Pile.take
  have hne : p.cards.isEmpty = false := by
    cases hc : p.cards with
    | nil => rw [hc] at hle; simp at hle; omega
    | cons a l => rfl
  have hn : ¬ ((n : Int) ≤ 0) := by exact_mod_cast Nat.not_le.mpr h0
  simp [hne, hn, Int.toNat_ofNat, Nat.min_eq_left hle]

/-- `take` of the whole (non-empty) pile empties it. -/
theorem take_all (p : Pile) (h : p.cards ≠ []) :
    p.take (p.cards.length : Int) = (p.cards, { p with cards := [] }) := by
  have h0 : 0 < p.cards.length := List.length_pos.mpr h
  rw [take_of_le p p.cards.length h0 (le_refl _)]
  simp

/-- `can_drop` rejects an empty card list on every pile type. -/
theorem can_drop_nil (target : Pile) : can_drop target [] = false := by
  unfold can_drop
  cases get_pile_type target.name <;>
    simp [can_build_tableau, can_build_foundation]

/-- `can_move` rejects every move whose `cards` list is empty — in
particular the candidate `SolitaireEngine.move` builds. -/
theorem can_move_nil (r : KlondikeRules) (st : GameState) (m : Move)
    (hm : m.cards = []) : r.can_move st m = false := by
  unfold KlondikeRules.can_move
  split
  · rfl
  · split
    · rfl
    · split
      · rfl
      · rename_i hdrop
        exfalso
        rcases hto : st.get_pile m.to_pile with _ | target
        · rw [hto] at hdrop; simp at hdrop
        · rw [hto] at hdrop
          rw [hm] at hdrop
          simp [can_drop_nil] at hdrop

/-- `SolitaireEngine.move` always fails and returns the engine
unchanged, because the candidate it validates carries no cards. -/
theorem move_eq_false (e : Engine) (f t : String) (n : Int) :
    e.move f t n = (false, e) := by
  unfold Engine.move
  cases hst : e.state with
  | none => rfl
  | some st => simp [can_move_nil e.rules st (moveCandidate f t) rfl]

/-! Claim theorems. -/

/-- C2: for every active game and all arguments, `SolitaireEngine.move`
returns false and leaves the committed state unchanged: the legality
check runs on a candidate `Move` with an empty cards list, `can_drop`
rejects an empty card list on every pile type, so `can_move` never
accepts the candidate. -/
theorem move_always_rejected_c2 :
    (∀ (target : Pile), can_drop target [] = false) ∧
    (∀ (r : KlondikeRules) (st : GameState) (f t : String),
      r.can_move st (moveCandidate f t) = false) ∧
    (∀ (e : Engine) (f t : String) (n : Int), e.move f t n = (false, e)) :=
  ⟨can_drop_nil, fun r st _ _ => can_move_nil r st _ rfl, move_eq_false⟩

/-- C1, counterexample to the claimed equivalence: in the initial
`standardDeck` deal, `can_move` accepts the equivalent candidate (source
`tableau_0`, destination `foundation_HEARTS`, its top card the face-up
Ace of Hearts), yet `move("tableau_0","foundation_HEARTS",1)` returns
false and leaves the engine unchanged. -/
theorem move_canmove_disagreement_c1 :
    demoEngine.state = some demoState ∧
    KlondikeRules.can_move ⟨false⟩ demoState
      { from_pile := "tableau_0", to_pile := "foundation_HEARTS",
        cards := [⟨Suit.hearts, 1, true⟩], from_index := 0,
        flipped_cards := [], score_delta := 0 } = true ∧
    demoEngine.move "tableau_0" "foundation_HEARTS" 1 = (false, demoEngine) := by
  refine ⟨rfl, by decide, move_eq_false demoEngine _ _ 1⟩

/-- C4, counterexample to the scenario: in the initial deal from
`standardDeck` the single card of `tableau_0` is the face-up Ace of
Hearts, yet `move("tableau_0","foundation_HEARTS",1)` fails and changes
nothing — the foundation stays empty and the score stays 0. -/
theorem foundation_scenario_rejected_c4 :
    demoState.get_pile "tableau_0" = some ⟨"tableau_0", [⟨Suit.hearts, 1, true⟩]⟩ ∧
    demoState.get_pile "foundation_HEARTS" = some ⟨"foundation_HEARTS", []⟩ ∧
    demoEngine.move "tableau_0" "foundation_HEARTS" 1 = (false, demoEngine) ∧
    demoEngine.state = some demoState ∧ demoState.score = 0 := by
  refine ⟨by decide, by decide, move_eq_false demoEngine _ _ 1, rfl, rfl⟩

/-- C6, counterexample: `take(2)` on a one-card pile does not fail with
an empty result and unchanged pile; Python slice clamping removes and
returns the whole pile. -/
theorem take_overflow_not_failing_c6 :
    Pile.take ⟨"p", [⟨Suit.hearts, 3, true⟩]⟩ 2
        = ([⟨Suit.hearts, 3, true⟩], ⟨"p", []⟩) ∧
    Pile.take ⟨"p", [⟨Suit.hearts, 3, true⟩]⟩ 2
        ≠ ([], ⟨"p", [⟨Suit.hearts, 3, true⟩]⟩) := by
  constructor
  · decide
  · decide

/-- C6, amended: `take(n)` removes and returns the top `n` cards in
original order when `0 < n ≤ size`; it returns an empty list with the
pile unchanged when `n ≤ 0` or the pile is empty; and when `n` exceeds
the size of a non-empty pile it removes and returns all cards. -/
theorem take_spec_c6 (p : Pile) (n : Int) :
    (n ≤ 0 ∨ p.cards = [] → p.take n = ([], p)) ∧
    (0 < n → n ≤ (p.cards.length : Int) →
      p.take n = (p.cards.drop (p.cards.length - n.toNat),
                  { p with cards := p.cards.take (p.cards.length - n.toNat) })) ∧
    ((p.cards.length : Int) < n → p.cards ≠ [] →
      p.take n = (p.cards, { p with cards := [] })) := by
  refine ⟨?_, ?_, ?_⟩
  · intro h
    unfold Pile.take
    have hc : (decide (n ≤ 0) || p.cards.isEmpty) = true := by
      rcases h with h | h
      · simp [h]
      · simp [h]
    simp only [hc, if_pos rfl]
    simp
  · intro h0 hle
    have h0n : 0 < n.toNat := by omega
    have hlen : n.toNat ≤ p.cards.length := by omega
    have := take_of_le p n.toNat h0n hlen
    rwa [Int.toNat_of_nonneg (le_of_lt h0)] at this
  · intro hlt hne
    unfold Pile.take
    have h1 : ¬ (n ≤ 0) := by omega
    have h2 : p.cards.isEmpty = false := by
      cases hc : p.cards with
      | nil => exact absurd hc hne
      | cons a l => rfl
    have h3 : min n.toNat p.cards.length = p.cards.length := by omega
    simp [h1, h2, h3]

/-- C6 witness: an in-range take, through `take_spec_c6`. -/
theorem take_spec_c6_witness :
    Pile.take ⟨"q", [⟨Suit.clubs, 9, true⟩, ⟨Suit.spades, 4, true⟩]⟩ 1
      = ([⟨Suit.spades, 4, true⟩], ⟨"q", [⟨Suit.clubs, 9, true⟩]⟩) := by
  have h := (take_spec_c6 ⟨"q", [⟨Suit.clubs, 9, true⟩, ⟨Suit.spades, 4, true⟩]⟩ 1).2.1
      (by decide) (by decide)
  rw [h]
  decide

/-- C7: the Klondike build rules.  A tableau pile accepts a (non-empty)
run exactly when the target is empty and the run starts with a King, or
the target's top card has the opposite color of the run's first card
and rank one higher.  A foundation accepts exactly one card, only while
holding fewer than 13, an Ace on an empty foundation or the same-suit
successor of its top card. -/
theorem klondike_build_rules_c7 :
    (∀ (pile : Pile) (c : Card) (rest : List Card),
      can_build_tableau pile (c :: rest) = true ↔
        (pile.cards = [] ∧ c.rank = 13) ∨
        (∃ top, pile.top = some top ∧ top.is_red ≠ c.is_red ∧
          top.rank = c.rank + 1)) ∧
    (∀ (pile : Pile) (cards : List Card),
      can_build_foundation pile cards = true ↔
        pile.size < 13 ∧ ∃ c, cards = [c] ∧
          ((pile.cards = [] ∧ c.rank = 1) ∨
           (∃ top, pile.top = some top ∧ top.suit = c.suit ∧
             c.rank = top.rank + 1))) := by
  constructor
  · intro pile c rest
    unfold can_build_tableau
    cases htop : pile.top with
    | none =>
      have hnil : pile.cards = [] := List.getLast?_eq_none_iff.mp htop
      simp [htop, hnil]
    | some top =>
      have hne : pile.cards ≠ [] := by
        intro hc
        rw [Pile.top, hc] at htop
        simp at htop
      simp only [htop]
      constructor
      · intro h
        simp only [Bool.and_eq_true, bne_iff_ne, beq_iff_eq] at h
        exact Or.inr ⟨top, rfl, h.1, h.2⟩
      · rintro (⟨hc, _⟩ | ⟨top2, htop2, hcol, hrank⟩)
        · exact absurd hc hne
        · injection htop2 with hh
          subst hh
          simp [hcol, hrank]
  · intro pile cards
    unfold can_build_foundation
    by_cases hfull : 13 ≤ pile.size
    · have : ¬ pile.size < 13 := by omega
      simp [hfull, this]
    · have hlt : pile.size < 13 := by omega
      simp only [if_neg hfull]
      match cards with
      | [] => simp
      | c :: d :: tl => simp
      | [c] =>
        cases htop : pile.top with
        | none =>
          have hnil : pile.cards = [] := List.getLast?_eq_none_iff.mp htop
          simp [htop, hnil, hlt]
        | some top =>
          have hne : pile.cards ≠ [] := by
            intro hc
            rw [Pile.top, hc] at htop
            simp at htop
          simp only [htop]
          constructor
          · intro h
            simp only [Bool.and_eq_true, beq_iff_eq] at h
            exact ⟨hlt, c, rfl, Or.inr ⟨top, rfl, h.1, h.2⟩⟩
          · rintro ⟨-, c2, hc2, (⟨hnil, _⟩ | ⟨top2, htop2, hsuit, hrank⟩)⟩
            · exact absurd hnil hne
            · injection hc2 with hcc
              injection htop2 with htt
              subst hcc; subst htt
              simp [hsuit, hrank]

/-- Only the literal name "stock" classifies as the stock. -/
theorem get_pile_type_eq_stock {name : String}
    (h : get_pile_type name = PileType.stock) : name = "stock" := by
  unfold get_pile_type at h
  split_ifs at h <;> first | assumption | cases h

/-- Only the literal name "waste" classifies as the waste. -/
theorem get_pile_type_eq_waste {name : String}
    (h : get_pile_type name = PileType.waste) : name = "waste" := by
  unfold get_pile_type at h
  split_ifs at h <;> first | assumption | cases h

/-- C8: Klondike `can_take`.  It returns false on every foundation pile
and on the stock; on the waste it accepts exactly a count of 1 from a
non-empty waste; on a tableau pile it accepts exactly the counts that
fit inside the contiguous face-up run at the top of an existing,
non-empty pile (in particular, only when `count` does not exceed the
face-up run length). -/
theorem klondike_can_take_c8 (r : KlondikeRules) (st : GameState)
    (name : String) (count : Int) :
    (get_pile_type name = PileType.foundation → r.can_take st name count = false) ∧
    (get_pile_type name = PileType.stock → r.can_take st name count = false) ∧
    (get_pile_type name = PileType.waste →
      (r.can_take st name count = true ↔ st.waste.cards ≠ [] ∧ count = 1)) ∧
    (get_pile_type name = PileType.tableau →
      (r.can_take st name count = true ↔
        ∃ pile, st.get_pile name = some pile ∧ pile.cards ≠ [] ∧
          count ≤ (pile.face_up_count : Int))) := by
  refine ⟨?_, ?_, ?_, ?_⟩
  · intro h
    unfold KlondikeRules.can_take
    cases hp : st.get_pile name with
    | none => rfl
    | some pile =>
      by_cases he : pile.cards.isEmpty
      · simp [he]
      · simp [he, h]
  · intro h
    unfold KlondikeRules.can_take
    cases hp : st.get_pile name with
    | none => rfl
    | some pile =>
      by_cases he : pile.cards.isEmpty
      · simp [he]
      · simp [he, h]
  · intro h
    have hn : name = "waste" := get_pile_type_eq_waste h
    subst hn
    have hp : st.get_pile "waste" = some st.waste := by
      unfold GameState.get_pile
      simp
    unfold KlondikeRules.can_take
    rw [hp]
    by_cases he : st.waste.cards.isEmpty
    · have : st.waste.cards = [] := by simpa using he
      simp [he, this]
    · have hne : st.waste.cards ≠ [] := by simpa using he
      simp [he, h, Pile.is_empty, hne]
  · intro h
    unfold KlondikeRules.can_take
    cases hp : st.get_pile name with
    | none => simp
    | some pile =>
      by_cases he : pile.cards.isEmpty
      · have : pile.cards = [] := by simpa using he
        simp [he, this]
      · have hne : pile.cards ≠ [] := by simpa using he
        simp [he, h, hne]

/-- C8 witness: foundation and stock rejections at concrete inputs. -/
theorem klondike_can_take_c8_witness :
    KlondikeRules.can_take ⟨false⟩ demoState "foundation_HEARTS" 1 = false ∧
    KlondikeRules.can_take ⟨false⟩ demoState "stock" 3 = false :=
  ⟨(klondike_can_take_c8 ⟨false⟩ demoState "foundation_HEARTS" 1).1 (by decide),
   (klondike_can_take_c8 ⟨false⟩ demoState "stock" 3).2.1 (by decide)⟩

/-- Evaluation of a successful `undo`. -/
theorem undo_eq_of_can (h : HistoryManager) (hc : 0 < h.current) :
    h.undo = ((h.entries.get? (h.current - 1).toNat).map (fun ent => ent.1),
              { h with current := h.current - 1 }) := by
  have hcu : h.can_undo = true := by
    unfold HistoryManager.can_undo
    exact decide_eq_true hc
  unfold HistoryManager.undo
  rw [hcu]
  rfl

/-- Evaluation of a successful `redo`. -/
theorem redo_eq_of_can (h : HistoryManager) (hc : h.current < (h.entries.length : Int) - 1) :
    h.redo = ((h.entries.get? (h.current + 1).toNat).map (fun ent => ent.1),
              { h with current := h.current + 1 }) := by
  have hcr : h.can_redo = true := by
    unfold HistoryManager.can_redo
    exact decide_eq_true hc
  unfold HistoryManager.redo
  rw [hcr]
  rfl

/-- Pushing always lands the cursor on the newest entry, so redo is
impossible immediately after a push (cursor at least -1, as it always is
in a live manager). -/
theorem push_can_redo_false (h : HistoryManager) (st : GameState) (m : Option Move)
    (hcur : -1 ≤ h.current) : (h.push st m).can_redo = false := by
  unfold HistoryManager.push HistoryManager.can_redo
  by_cases hev : h.limit < (h.entries.take (h.current + 1).toNat ++ [(st, m)]).length
  · rw [if_pos hev]
    simp only [List.length_append, List.length_take, List.length_singleton] at hev
    simp only [decide_eq_false_iff_not, not_lt, List.length_drop, List.length_append,
      List.length_take, List.length_singleton]
    omega
  · rw [if_neg hev]
    simp only [List.length_append, List.length_take, List.length_singleton] at hev
    simp only [decide_eq_false_iff_not, not_lt, List.length_append,
      List.length_take, List.length_singleton]
    omega

/-- C9: after a successful undo, a push discards the future: redo is
impossible (`can_redo` is false on the resulting manager). -/
theorem branch_discard_c9 (h : HistoryManager) (st : GameState) (m : Option Move)
    (hlen : 2 ≤ h.entries.length) (hcu : h.can_undo = true)
    (hwf : h.current < (h.entries.length : Int)) :
    (h.undo).1.isSome = true ∧ ((h.undo).2.push st m).can_redo = false := by
  have hc : 0 < h.current := by simpa [HistoryManager.can_undo] using hcu
  rw [undo_eq_of_can h hc]
  have hlt : (h.current - 1).toNat < h.entries.length := by omega
  constructor
  · rw [List.get?_eq_get hlt]
    rfl
  · exact push_can_redo_false _ st m (by simp; omega)

/-- A concrete two-entry history sitting on its newest entry. -/
def histDemo : HistoryManager :=
  { entries := [(emptyState, none), (recDemoState, none)], current := 1, limit := 5000 }

/-- C9 witness: the concrete two-entry history. -/
theorem branch_discard_c9_witness :
    2 ≤ histDemo.entries.length ∧ histDemo.can_undo = true ∧
    ((histDemo.undo).1.isSome = true ∧
      ((histDemo.undo).2.push emptyState none).can_redo = false) :=
  ⟨by decide, by decide,
   branch_discard_c9 histDemo emptyState none (by decide) (by decide) (by decide)⟩

/-- C10: history boundaries.  With the cursor in range, `undo` fails
(returning `none` with the manager unchanged) exactly at the earliest
entry and otherwise decrements the cursor and returns that entry's
state; `redo` fails exactly at the newest entry and otherwise increments
the cursor and returns that entry's state.  Both failures are ordinary
return values. -/
theorem history_boundaries_c10 (h : HistoryManager)
    (hwf : 0 ≤ h.current ∧ h.current < (h.entries.length : Int)) :
    ((h.undo).1 = none ↔ h.current = 0) ∧
    (h.current = 0 → h.undo = (none, h)) ∧
    (0 < h.current → ∃ ent, h.entries.get? (h.current - 1).toNat = some ent ∧
        h.undo = (some ent.1, { h with current := h.current - 1 })) ∧
    ((h.redo).1 = none ↔ h.current = (h.entries.length : Int) - 1) ∧
    (h.current = (h.entries.length : Int) - 1 → h.redo = (none, h)) ∧
    (h.current < (h.entries.length : Int) - 1 →
      ∃ ent, h.entries.get? (h.current + 1).toNat = some ent ∧
        h.redo = (some ent.1, { h with current := h.current + 1 })) := by
  obtain ⟨hge, hlt⟩ := hwf
  have hundo : ∀ _ : 0 < h.current,
      ∃ ent, h.entries.get? (h.current - 1).toNat = some ent ∧
        h.undo = (some ent.1, { h with current := h.current - 1 }) := by
    intro hc
    have hb : (h.current - 1).toNat < h.entries.length := by omega
    refine ⟨h.entries.get ⟨(h.current - 1).toNat, hb⟩, List.get?_eq_get hb, ?_⟩
    rw [undo_eq_of_can h hc, List.get?_eq_get hb]
    rfl
  have hredo : ∀ _ : h.current < (h.entries.length : Int) - 1,
      ∃ ent, h.entries.get? (h.current + 1).toNat = some ent ∧
        h.redo = (some ent.1, { h with current := h.current + 1 }) := by
    intro hc
    have hb : (h.current + 1).toNat < h.entries.length := by omega
    refine ⟨h.entries.get ⟨(h.current + 1).toNat, hb⟩, List.get?_eq_get hb, ?_⟩
    rw [redo_eq_of_can h hc, List.get?_eq_get hb]
    rfl
  refine ⟨?_, ?_, hundo, ?_, ?_, hredo⟩
  · by_cases hc : 0 < h.current
    · obtain ⟨ent, -, he⟩ := hundo hc
      rw [he]
      simp
      omega
    · have h0 : h.current = 0 := by omega
      unfold HistoryManager.undo
      have : h.can_undo = false := by simp [HistoryManager.can_undo]; omega
      simp [this, h0]
  · intro h0
    unfold HistoryManager.undo
    have : h.can_undo = false := by simp [HistoryManager.can_undo]; omega
    simp [this]
  · by_cases hc : h.current < (h.entries.length : Int) - 1
    · obtain ⟨ent, -, he⟩ := hredo hc
      rw [he]
      simp
      omega
    · have h0 : h.current = (h.entries.length : Int) - 1 := by omega
      unfold HistoryManager.redo
      have : h.can_redo = false := by simp [HistoryManager.can_redo]; omega
      simp [this, h0]
  · intro h0
    unfold HistoryManager.redo
    have : h.can_redo = false := by simp [HistoryManager.can_redo]; omega
    simp [this]

/-- C10 witness: the two-entry demo history, cursor at the newest
entry: undo succeeds, redo fails. -/
theorem history_boundaries_c10_witness :
    ((histDemo.undo).1 = none ↔ histDemo.current = 0) ∧
    ((histDemo.redo).1 = none ↔ histDemo.current = (histDemo.entries.length : Int) - 1) :=
  ⟨(history_boundaries_c10 histDemo (by constructor <;> decide)).1,
   (history_boundaries_c10 histDemo (by constructor <;> decide)).2.2.2.1⟩

/-! Card conservation (C3). -/

/-- Combining key multisets of two card lists. -/
theorem coe_map_add (a b : List Card) :
    ((a.map cardKey : List (Suit × Nat)) : Multiset (Suit × Nat)) +
      ((b.map cardKey : List (Suit × Nat)) : Multiset (Suit × Nat))
      = (((a ++ b).map cardKey : List (Suit × Nat)) : Multiset (Suit × Nat)) := by
  rw [Multiset.coe_add, ← List.map_append]

/-- Moving the whole waste, face-down, onto the stock preserves the
card multiset (the recycle state transformation). -/
theorem allCards_waste_to_stock (ns : GameState) (n : Int) :
    ({ ns with stock := ns.stock.add (((ns.waste.take n).1).map Card.make_face_down),
               waste := (ns.waste.take n).2 } : GameState).allCards = ns.allCards := by
  unfold GameState.allCards Pile.add
  simp only []
  rw [List.map_append, ← Multiset.coe_add, map_key_face_down]
  have h2 : (((ns.waste.take n).2.cards.map cardKey : List (Suit × Nat)) : Multiset (Suit × Nat)) +
      (((ns.waste.take n).1.map cardKey : List (Suit × Nat)) : Multiset (Suit × Nat))
      = ((ns.waste.cards.map cardKey : List (Suit × Nat)) : Multiset (Suit × Nat)) := by
    rw [coe_map_add, take_append]
  rw [← h2]
  abel

/-- Drawing from the stock to the waste (cards flipped face-up)
preserves the card multiset. -/
theorem allCards_stock_to_waste (st : GameState) (n : Int) (mc : Int) :
    ({ st with stock := (st.stock.take n).2,
               waste := st.waste.add (((st.stock.take n).1).map Card.make_face_up),
               moves_count := mc } : GameState).allCards = st.allCards := by
  unfold GameState.allCards Pile.add
  simp only []
  rw [List.map_append, ← Multiset.coe_add, map_key_face_up]
  have h2 : (((st.stock.take n).2.cards.map cardKey : List (Suit × Nat)) : Multiset (Suit × Nat)) +
      (((st.stock.take n).1.map cardKey : List (Suit × Nat)) : Multiset (Suit × Nat))
      = ((st.stock.cards.map cardKey : List (Suit × Nat)) : Multiset (Suit × Nat)) := by
    rw [coe_map_add, take_append]
  rw [← h2]
  abel

/-- Any entry of a pushed history is an old entry or the pushed one. -/
theorem mem_push {h : HistoryManager} {st : GameState} {m : Option Move}
    {ent : GameState × Option Move} (hm : ent ∈ (h.push st m).entries) :
    ent ∈ h.entries ∨ ent = (st, m) := by
  unfold HistoryManager.push at hm
  by_cases hev : h.limit < (h.entries.take (h.current + 1).toNat ++ [(st, m)]).length
  · rw [if_pos hev] at hm
    simp only [] at hm
    have hm2 := List.drop_subset 1 _ hm
    rcases List.mem_append.mp hm2 with h1 | h1
    · exact Or.inl (List.take_subset _ _ h1)
    · exact Or.inr (by simpa using h1)
  · rw [if_neg hev] at hm
    simp only [] at hm
    rcases List.mem_append.mp hm with h1 | h1
    · exact Or.inl (List.take_subset _ _ h1)
    · exact Or.inr (by simpa using h1)

/-- Neither `undo` nor `redo` changes the stored entries. -/
theorem undo_entries (h : HistoryManager) : (h.undo).2.entries = h.entries := by
  unfold HistoryManager.undo
  by_cases hc : h.can_undo = true
  · rw [hc]; rfl
  · rw [Bool.not_eq_true] at hc; rw [hc]; rfl

/-- `redo` keeps the stored entries. -/
theorem redo_entries (h : HistoryManager) : (h.redo).2.entries = h.entries := by
  unfold HistoryManager.redo
  by_cases hc : h.can_redo = true
  · rw [hc]; rfl
  · rw [Bool.not_eq_true] at hc; rw [hc]; rfl

/-- A state returned by `undo` comes from the stored entries. -/
theorem undo_state_mem {h : HistoryManager} {s : GameState}
    (hs : (h.undo).1 = some s) : ∃ m, (s, m) ∈ h.entries := by
  unfold HistoryManager.undo at hs
  by_cases hc : h.can_undo = true
  · rw [hc] at hs
    simp only [Bool.not_true, if_false] at hs
    rcases ho : h.entries.get? (h.current - 1).toNat with _ | ent
    · rw [ho] at hs; cases hs
    · rw [ho] at hs
      have he : ent.1 = s := by
        simpa using hs
      exact ⟨ent.2, by rw [← he]; exact List.get?_mem ho⟩
  · rw [Bool.not_eq_true] at hc; rw [hc] at hs; cases hs

/-- A state returned by `redo` comes from the stored entries. -/
theorem redo_state_mem {h : HistoryManager} {s : GameState}
    (hs : (h.redo).1 = some s) : ∃ m, (s, m) ∈ h.entries := by
  unfold HistoryManager.redo at hs
  by_cases hc : h.can_redo = true
  · rw [hc] at hs
    simp only [Bool.not_true, if_false] at hs
    rcases ho : h.entries.get? (h.current + 1).toNat with _ | ent
    · rw [ho] at hs; cases hs
    · rw [ho] at hs
      have he : ent.1 = s := by
        simpa using hs
      exact ⟨ent.2, by rw [← he]; exact List.get?_mem ho⟩
  · rw [Bool.not_eq_true] at hc; rw [hc] at hs; cases hs

/-- The conservation invariant: the live state and every stored
snapshot all carry the card multiset `D`. -/
def Conserves (D : Multiset (Suit × Nat)) (e : Engine) : Prop :=
  (∀ st, e.state = some st → st.allCards = D) ∧
  (∀ ent ∈ e.history.entries, ent.1.allCards = D)

/-- Pushing a conserving state onto a conserving history conserves. -/
theorem conserves_push {D : Multiset (Suit × Nat)} {h : HistoryManager}
    {st : GameState} {m : Option Move}
    (hh : ∀ ent ∈ h.entries, ent.1.allCards = D) (hst : st.allCards = D) :
    ∀ ent ∈ (h.push st m).entries, ent.1.allCards = D := by
  intro ent hm
  rcases mem_push hm with h1 | h1
  · exact hh ent h1
  · rw [h1]; exact hst

/-- `move` preserves the invariant (it never changes the engine). -/
theorem conserves_move {D : Multiset (Suit × Nat)} (e : Engine) (f t : String)
    (n : Int) (hc : Conserves D e) : Conserves D (e.move f t n).2 := by
  rw [move_eq_false]
  exact hc

/-- Shape of `Engine.undo`: the stored entries never change, and the
resulting live state is either the old one or a stored snapshot. -/
theorem undo_shape (e : Engine) :
    (e.undo).2.history.entries = e.history.entries ∧
    ((e.undo).2.state = e.state ∨
      ∃ s m, (e.undo).2.state = some s ∧ (s, m) ∈ e.history.entries) := by
  unfold Engine.undo
  cases hst : e.state with
  | none => exact ⟨rfl, Or.inl hst⟩
  | some st =>
    by_cases hcu : e.history.can_undo = true
    · rw [hcu]
      simp only [Bool.not_true, Bool.false_eq_true, if_false]
      rcases hu : e.history.undo with ⟨r, h2⟩
      have hent : h2.entries = e.history.entries := by
        have := undo_entries e.history
        rw [hu] at this
        exact this
      cases r with
      | none => exact ⟨hent, Or.inl rfl⟩
      | some prev =>
        refine ⟨hent, Or.inr ⟨prev, ?_⟩⟩
        have hp : (e.history.undo).1 = some prev := by rw [hu]
        obtain ⟨m, hmem⟩ := undo_state_mem hp
        exact ⟨m, rfl, hmem⟩
    · rw [Bool.not_eq_true] at hcu
      rw [hcu]
      exact ⟨rfl, Or.inl hst⟩

/-- Shape of `Engine.redo`, symmetric to `undo_shape`. -/
theorem redo_shape (e : Engine) :
    (e.redo).2.history.entries = e.history.entries ∧
    ((e.redo).2.state = e.state ∨
      ∃ s m, (e.redo).2.state = some s ∧ (s, m) ∈ e.history.entries) := by
  unfold Engine.redo
  cases hst : e.state with
  | none => exact ⟨rfl, Or.inl hst⟩
  | some st =>
    by_cases hcr : e.history.can_redo = true
    · rw [hcr]
      simp only [Bool.not_true, Bool.false_eq_true, if_false]
      rcases hu : e.history.redo with ⟨r, h2⟩
      have hent : h2.entries = e.history.entries := by
        have := redo_entries e.history
        rw [hu] at this
        exact this
      cases r with
      | none => exact ⟨hent, Or.inl rfl⟩
      | some nxt =>
        refine ⟨hent, Or.inr ⟨nxt, ?_⟩⟩
        have hp : (e.history.redo).1 = some nxt := by rw [hu]
        obtain ⟨m, hmem⟩ := redo_state_mem hp
        exact ⟨m, rfl, hmem⟩
    · rw [Bool.not_eq_true] at hcr
      rw [hcr]
      exact ⟨rfl, Or.inl hst⟩

/-- `undo` preserves the invariant. -/
theorem conserves_undo {D : Multiset (Suit × Nat)} (e : Engine)
    (hc : Conserves D e) : Conserves D (e.undo).2 := by
  obtain ⟨hs, hh⟩ := hc
  obtain ⟨hent, hstate⟩ := undo_shape e
  refine ⟨?_, ?_⟩
  · intro st2 hst2
    rcases hstate with h1 | ⟨s, m, h1, hmem⟩
    · exact hs st2 (h1 ▸ hst2)
    · rw [h1] at hst2
      injection hst2 with h3
      rw [← h3]
      exact hh (s, m) hmem
  · intro ent hm
    exact hh ent (hent ▸ hm)

/-- `redo` preserves the invariant. -/
theorem conserves_redo {D : Multiset (Suit × Nat)} (e : Engine)
    (hc : Conserves D e) : Conserves D (e.redo).2 := by
  obtain ⟨hs, hh⟩ := hc
  obtain ⟨hent, hstate⟩ := redo_shape e
  refine ⟨?_, ?_⟩
  · intro st2 hst2
    rcases hstate with h1 | ⟨s, m, h1, hmem⟩
    · exact hs st2 (h1 ▸ hst2)
    · rw [h1] at hst2
      injection hst2 with h3
      rw [← h3]
      exact hh (s, m) hmem
  · intro ent hm
    exact hh ent (hent ▸ hm)

/-- What a successful `_recycle_stock` produces: a state with the same
card multiset, pushed onto the history. -/
theorem recycle_stock_some {e : Engine} {old ns rst : GameState}
    {h2 : HistoryManager}
    (h : e.recycle_stock old ns = some (rst, h2)) :
    rst.allCards = ns.allCards ∧ ∃ mv, h2 = e.history.push rst (some mv) := by
  unfold Engine.recycle_stock at h
  by_cases hw : ns.waste.cards.isEmpty
  · rw [if_pos hw] at h
    cases h
  · rw [if_neg hw] at h
    simp only [] at h
    injection h with h3
    injection h3 with ha hb
    constructor
    · rw [← ha]
      exact allCards_waste_to_stock ns (ns.waste.size : Int)
    · exact ⟨_, by rw [← hb, ← ha]⟩

/-- `drawGo` preserves the invariant, whatever the fuel. -/
theorem conserves_drawGo {D : Multiset (Suit × Nat)} :
    ∀ (fuel : Nat) (e : Engine), Conserves D e → Conserves D (Engine.drawGo fuel e).2 := by
  intro fuel
  induction fuel with
  | zero => intro e hc; exact hc
  | succ fuel ih =>
    intro e hc
    obtain ⟨hs, hh⟩ := hc
    unfold Engine.drawGo
    cases hst : e.state with
    | none => exact ⟨hs, hh⟩
    | some st =>
      have hstD : st.allCards = D := hs st hst
      dsimp only
      by_cases hcd : e.rules.can_draw st = true
      · rw [hcd]
        simp only [Bool.not_true, Bool.false_eq_true, if_false]
        by_cases hse : st.stock.is_empty = true
        · rw [hse]
          simp only [if_true]
          rcases hrc : e.recycle_stock st st with _ | pr
          · exact ⟨hs, hh⟩
          · rcases pr with ⟨rst, h2⟩
            obtain ⟨hkeys, mv, hpush⟩ := recycle_stock_some hrc
            apply ih
            constructor
            · intro st2 hst2
              have : some rst = some st2 := hst2
              injection this with h3
              rw [← h3, hkeys]
              exact hstD
            · intro ent hm
              have hm2 : ent ∈ (e.history.push rst (some mv)).entries := by
                rw [← hpush]; exact hm
              exact conserves_push hh (hkeys.trans hstD) ent hm2
        · rw [Bool.not_eq_true] at hse
          rw [hse]
          simp only [Bool.false_eq_true, if_false]
          constructor
          · intro st2 hst2
            have : some _ = some st2 := hst2
            injection this with h3
            rw [← h3]
            rw [allCards_stock_to_waste st _ _]
            exact hstD
          · intro ent hm
            apply conserves_push hh _ ent hm
            rw [allCards_stock_to_waste st _ _]
            exact hstD
      · rw [Bool.not_eq_true] at hcd
        rw [hcd]
        exact ⟨hs, hh⟩

/-- `draw` preserves the invariant. -/
theorem conserves_draw (e : Engine) {D : Multiset (Suit × Nat)}
    (hc : Conserves D e) : Conserves D (e.draw).2 :=
  conserves_drawGo 2 e hc

/-- The freshly dealt engine satisfies the invariant for its own initial
card multiset. -/
theorem conserves_new_game (r : KlondikeRules) (deck : List Card) :
    Conserves (newGameState r deck).allCards ((Engine.init r).new_game deck) := by
  constructor
  · intro st hst
    have : some (newGameState r deck) = some st := hst
    injection this with h3
    rw [← h3]
  · intro ent hm
    have : ent ∈ ({ entries := [(newGameState r deck, none)], current := 0,
                    limit := 5000 } : HistoryManager).entries := hm
    have h4 : ent = (newGameState r deck, none) := by simpa using this
    rw [h4]

/-- `dealFlip` only changes orientations: lengths agree. -/
theorem dealFlip_length (col : Nat) : ∀ (row : Nat) (l : List Card),
    (dealFlip col row l).length = l.length
  | _, [] => rfl
  | row, c :: cs => by
    simp only [dealFlip, List.length_cons, dealFlip_length col (row + 1) cs]

/-- `dealFlip` only changes orientations: keys agree. -/
theorem dealFlip_map_key (col : Nat) : ∀ (row : Nat) (l : List Card),
    (dealFlip col row l).map cardKey = l.map cardKey
  | _, [] => rfl
  | row, c :: cs => by
    simp only [dealFlip, List.map_cons, dealFlip_map_key col (row + 1) cs]
    rfl

/-- Length of a dealt column when the deck reaches far enough. -/
theorem dealColumn_length (deck : List Card) (c : Nat)
    (h : c * (c + 1) / 2 + (c + 1) ≤ deck.length) :
    (dealColumn deck c).size = c + 1 := by
  unfold dealColumn Pile.size
  rw [dealFlip_length]
  simp only [List.length_take, List.length_drop]
  omega

/-- The deal consumes exactly 28 cards from a 52-card deck (1+2+...+7,
the four foundations are dealt empty). -/
theorem deal_count (r : KlondikeRules) (deck : List Card)
    (h : 28 ≤ deck.length) :
    ((r.deal deck).map (fun kv => kv.2.size)).sum = 28 := by
  have h0 := dealColumn_length deck 0 (by omega)
  have h1 := dealColumn_length deck 1 (by omega)
  have h2 := dealColumn_length deck 2 (by omega)
  have h3 := dealColumn_length deck 3 (by omega)
  have h4 := dealColumn_length deck 4 (by omega)
  have h5 := dealColumn_length deck 5 (by omega)
  have h6 := dealColumn_length deck 6 (by omega)
  unfold KlondikeRules.deal
  simp only [suitList, List.map_append, List.map_cons, List.map_nil, List.sum_append,
    List.sum_cons, List.sum_nil, Pile.size, List.length_nil]
  simp only [Pile.size] at h0 h1 h2 h3 h4 h5 h6
  omega

/-- Splitting a take across adjacent drop/take windows. -/
theorem drop_take_chain {α : Type} (l : List α) (a b c : Nat) :
    (l.drop a).take (b + c) = (l.drop a).take b ++ (l.drop (a + b)).take c := by
  rw [List.take_add, List.drop_drop]

/-- Keys of a dealt column are the keys of its deck slice. -/
theorem dealColumn_keys (deck : List Card) (c : Nat) :
    (dealColumn deck c).cards.map cardKey
      = ((deck.drop (c * (c + 1) / 2)).take (c + 1)).map cardKey :=
  dealFlip_map_key c 0 _

/-- The first 28 cards split into the seven consecutive deal slices. -/
theorem take28_split (deck : List Card) :
    deck.take 28 =
      (deck.drop (0 * (0 + 1) / 2)).take (0 + 1) ++
        ((deck.drop (1 * (1 + 1) / 2)).take (1 + 1) ++
          ((deck.drop (2 * (2 + 1) / 2)).take (2 + 1) ++
            ((deck.drop (3 * (3 + 1) / 2)).take (3 + 1) ++
              ((deck.drop (4 * (4 + 1) / 2)).take (4 + 1) ++
                ((deck.drop (5 * (5 + 1) / 2)).take (5 + 1) ++
                  (deck.drop (6 * (6 + 1) / 2)).take (6 + 1)))))) := by
  show deck.take 28 =
    (deck.drop 0).take 1 ++ ((deck.drop 1).take 2 ++ ((deck.drop 3).take 3 ++
      ((deck.drop 6).take 4 ++ ((deck.drop 10).take 5 ++
        ((deck.drop 15).take 6 ++ (deck.drop 21).take 7)))))
  have h0 : (deck.drop 0).take 28 = (deck.drop 0).take 1 ++ (deck.drop 1).take 27 :=
    drop_take_chain deck 0 1 27
  have h1 : (deck.drop 1).take 27 = (deck.drop 1).take 2 ++ (deck.drop 3).take 25 :=
    drop_take_chain deck 1 2 25
  have h2 : (deck.drop 3).take 25 = (deck.drop 3).take 3 ++ (deck.drop 6).take 22 :=
    drop_take_chain deck 3 3 22
  have h3 : (deck.drop 6).take 22 = (deck.drop 6).take 4 ++ (deck.drop 10).take 18 :=
    drop_take_chain deck 6 4 18
  have h4 : (deck.drop 10).take 18 = (deck.drop 10).take 5 ++ (deck.drop 15).take 13 :=
    drop_take_chain deck 10 5 13
  have h5 : (deck.drop 15).take 13 = (deck.drop 15).take 6 ++ (deck.drop 21).take 7 :=
    drop_take_chain deck 15 6 7
  conv_lhs => rw [← List.drop_zero deck]
  rw [h0, h1, h2, h3, h4, h5]

/-- The dealt piles carry exactly the keys of the first 28 deck cards. -/
theorem deal_keys (r : KlondikeRules) (deck : List Card) :
    ((r.deal deck).map
        (fun kv => ((kv.2.cards.map cardKey : List (Suit × Nat)) : Multiset (Suit × Nat)))).sum
      = (((deck.take 28).map cardKey : List (Suit × Nat)) : Multiset (Suit × Nat)) := by
  unfold KlondikeRules.deal
  simp only [suitList, List.map_append, List.map_cons, List.map_nil, List.sum_append,
    List.sum_cons, List.sum_nil, add_zero, Multiset.coe_nil]
  rw [dealColumn_keys deck 0, dealColumn_keys deck 1, dealColumn_keys deck 2,
    dealColumn_keys deck 3, dealColumn_keys deck 4, dealColumn_keys deck 5,
    dealColumn_keys deck 6]
  rw [coe_map_add, coe_map_add, coe_map_add, coe_map_add, coe_map_add, coe_map_add]
  rw [← take28_split deck]

/-- The initial state of a 52-card game carries exactly the deck's card
multiset. -/
theorem newGame_allCards (r : KlondikeRules) (deck : List Card)
    (hlen : deck.length = 52) :
    (newGameState r deck).allCards = deckKeys deck := by
  have hcount : ((r.deal deck).map (fun kv => kv.2.size)).sum = 28 :=
    deal_count r deck (by omega)
  unfold newGameState GameState.allCards deckKeys
  dsimp only
  rw [hcount, deal_keys]
  simp only [List.map_nil, Multiset.coe_nil, add_zero]
  rw [add_comm, coe_map_add, List.take_append_drop]

/-- Everything reachable from `new_game` keeps the dealt multiset. -/
theorem reachable_conserves {r : KlondikeRules} {deck : List Card} {e : Engine}
    (hr : Reachable r deck e) : Conserves (newGameState r deck).allCards e := by
  induction hr with
  | base => exact conserves_new_game r deck
  | move e f t n _ ih => exact conserves_move e f t n ih
  | draw e _ ih => exact conserves_draw e ih
  | undo e _ ih => exact conserves_undo e ih
  | redo e _ ih => exact conserves_redo e ih

/-- C3, card conservation: for every engine reachable from `new_game`
on a 52-card deck by any sequence of `move`, `draw`, `undo` and `redo`
calls, the multiset of (suit, rank) pairs over the stock, the waste and
every named pile equals the multiset of the 52 dealt cards — no card is
duplicated and none is lost. -/
theorem card_conservation_c3 (r : KlondikeRules) (deck : List Card) (e : Engine)
    (st : GameState) (hlen : deck.length = 52) (hr : Reachable r deck e)
    (hst : e.state = some st) : st.allCards = deckKeys deck := by
  have h1 := (reachable_conserves hr).1 st hst
  rw [h1, newGame_allCards r deck hlen]

/-- C3 witness: the freshly dealt `standardDeck` engine. -/
theorem card_conservation_c3_witness :
    standardDeck.length = 52 ∧
    ∃ st, demoEngine.state = some st ∧ st.allCards = deckKeys standardDeck :=
  ⟨by decide, demoState, rfl,
    card_conservation_c3 ⟨false⟩ standardDeck demoEngine demoState (by decide)
      Reachable.base rfl⟩

/-- C5 counterexample: with empty stock and a five-card waste, `draw()`
succeeds but the committed score is unchanged (0); the claimed recycle
penalty (-10 in the single-draw variant) is never applied to the
state. -/
theorem recycle_no_score_penalty_c5 :
    (recDemoEngine.draw).1 = true ∧
    (recDemoEngine.draw).2.state.map GameState.score = some 0 ∧
    recDemoState.score = 0 ∧
    (recDemoEngine.draw).2.state.map GameState.score ≠ some (recDemoState.score - 10) := by
  refine ⟨by decide, by decide, rfl, by decide⟩

/-- Evaluation of `_recycle_stock` on an empty stock and non-empty
waste: the whole waste goes face-down onto the stock, the penalty is
recorded only in the pushed Move's `score_delta`. -/
theorem recycle_eval (e : Engine) (st : GameState) (hstock : st.stock.cards = [])
    (hwaste : st.waste.cards ≠ []) :
    e.recycle_stock st st = some
      ({ st with waste := { st.waste with cards := [] },
                 stock := { st.stock with cards := st.waste.cards.map Card.make_face_down } },
       e.history.push
         { st with waste := { st.waste with cards := [] },
                   stock := { st.stock with cards := st.waste.cards.map Card.make_face_down } }
         (some { from_pile := "waste", to_pile := "stock",
                 cards := st.waste.cards.map Card.make_face_down, from_index := 0,
                 flipped_cards := (List.range (st.waste.cards.map Card.make_face_down).length).map
                   (fun i => ("waste", i)),
                 score_delta := e.rules.score_recycle st })) := by
  unfold Engine.recycle_stock
  have hwe : st.waste.cards.isEmpty = false := by simpa using hwaste
  rw [hwe]
  simp only [Bool.false_eq_true, if_false]
  have htk : st.waste.take ((st.waste.size : Int))
      = (st.waste.cards, { st.waste with cards := [] }) := take_all st.waste hwaste
  rw [htk]
  dsimp only
  unfold Pile.add
  rw [hstock]
  rfl

/-- Evaluation of the normal branch of `draw` (non-empty stock). -/
theorem draw_normal_eval (fuel : Nat) (e : Engine) (st : GameState)
    (hstate : e.state = some st) (hstock : st.stock.cards ≠ []) :
    Engine.drawGo (fuel + 1) e =
      (true,
       { e with
         state := some
           { st with
             stock := (st.stock.take ((min e.rules.get_draw_count st.stock.size : Nat) : Int)).2,
             waste := st.waste.add
               (((st.stock.take ((min e.rules.get_draw_count st.stock.size : Nat) : Int)).1).map
                 Card.make_face_up),
             moves_count := st.moves_count + 1 },
         history := e.history.push
           { st with
             stock := (st.stock.take ((min e.rules.get_draw_count st.stock.size : Nat) : Int)).2,
             waste := st.waste.add
               (((st.stock.take ((min e.rules.get_draw_count st.stock.size : Nat) : Int)).1).map
                 Card.make_face_up),
             moves_count := st.moves_count + 1 }
           (some { from_pile := "stock", to_pile := "waste",
                   cards := ((st.stock.take
                     ((min e.rules.get_draw_count st.stock.size : Nat) : Int)).1).map
                     Card.make_face_up,
                   from_index := (((st.stock.take
                     ((min e.rules.get_draw_count st.stock.size : Nat) : Int)).2).size : Int),
                   flipped_cards := [],
                   score_delta := e.rules.score_draw st
                     (((st.stock.take
                       ((min e.rules.get_draw_count st.stock.size : Nat) : Int)).1).map
                       Card.make_face_up) }) }) := by
  unfold Engine.drawGo
  rw [hstate]
  dsimp only
  have hcd : e.rules.can_draw st = true := by
    simp [KlondikeRules.can_draw, Pile.is_empty, hstock]
  rw [hcd]
  simp only [Bool.not_true, Bool.false_eq_true, if_false]
  have hse : st.stock.is_empty = false := by
    simpa [Pile.is_empty] using hstock
  rw [hse]
  simp only [Bool.false_eq_true, if_false]

/-- C5, amended: with empty stock and non-empty waste, a single `draw()`
first moves all waste cards face-down into the stock (recording the
recycle penalty only in the recycle Move's `score_delta` — the
committed score is unchanged), then draws min(configured count,
recycled stock size) cards face-up back into the waste; the moves
counter increases by exactly 1 and the named piles are untouched. -/
theorem draw_recycle_amended_c5 (e : Engine) (st : GameState)
    (hstate : e.state = some st) (hstock : st.stock.cards = [])
    (hwaste : st.waste.cards ≠ []) :
    (e.draw).1 = true ∧
    ∃ st2, (e.draw).2.state = some st2 ∧
      st2.stock.cards = (st.waste.cards.map Card.make_face_down).take
          (st.waste.cards.length - min e.rules.get_draw_count st.waste.cards.length) ∧
      st2.waste.cards = ((st.waste.cards.map Card.make_face_down).drop
          (st.waste.cards.length - min e.rules.get_draw_count st.waste.cards.length)).map
          Card.make_face_up ∧
      st2.score = st.score ∧
      st2.moves_count = st.moves_count + 1 ∧
      st2.piles = st.piles := by
  have hrec := recycle_eval e st hstock hwaste
  have hWd : (st.waste.cards.map Card.make_face_down) ≠ [] := by
    simpa using hwaste
  have hcd : e.rules.can_draw st = true := by
    simp [KlondikeRules.can_draw, Pile.is_empty, hwaste]
  have hse : st.stock.is_empty = true := by
    simp [Pile.is_empty, hstock]
  unfold Engine.draw Engine.drawGo
  rw [hstate]
  dsimp only
  rw [hcd]
  simp only [Bool.not_true, Bool.false_eq_true, if_false]
  rw [hse]
  simp only [if_true]
  rw [hrec]
  dsimp only
  rw [draw_normal_eval 0 _ _ rfl (by dsimp only; exact hWd)]
  dsimp only
  refine ⟨rfl, _, rfl, ?_, ?_, rfl, rfl, rfl⟩
  · have h1 : 0 < min e.rules.get_draw_count
        (Pile.size { st.stock with cards := st.waste.cards.map Card.make_face_down }) := by
      have : 1 ≤ e.rules.get_draw_count := by
        unfold KlondikeRules.get_draw_count
        split <;> norm_num
      have h2 : 0 < (st.waste.cards.map Card.make_face_down).length := by
        exact List.length_pos.mpr hWd
      simp only [Pile.size]
      omega
    have h2 : min e.rules.get_draw_count
        (Pile.size { st.stock with cards := st.waste.cards.map Card.make_face_down })
        ≤ (st.waste.cards.map Card.make_face_down).length := by
      simp only [Pile.size]
      omega
    rw [take_of_le _ _ h1 h2]
    simp [Pile.size]
  · have h1 : 0 < min e.rules.get_draw_count
        (Pile.size { st.stock with cards := st.waste.cards.map Card.make_face_down }) := by
      have : 1 ≤ e.rules.get_draw_count := by
        unfold KlondikeRules.get_draw_count
        split <;> norm_num
      have h2 : 0 < (st.waste.cards.map Card.make_face_down).length := by
        exact List.length_pos.mpr hWd
      simp only [Pile.size]
      omega
    have h2 : min e.rules.get_draw_count
        (Pile.size { st.stock with cards := st.waste.cards.map Card.make_face_down })
        ≤ (st.waste.cards.map Card.make_face_down).length := by
      simp only [Pile.size]
      omega
    rw [take_of_le _ _ h1 h2]
    unfold Pile.add
    simp [Pile.size]

/-- C5 witness: the concrete recycle scenario through the amended
theorem. -/
theorem draw_recycle_amended_c5_witness :
    recDemoEngine.state = some recDemoState ∧ recDemoState.stock.cards = [] ∧
    recDemoState.waste.cards ≠ [] ∧
    ((recDemoEngine.draw).1 = true ∧
      ∃ st2, (recDemoEngine.draw).2.state = some st2 ∧
        st2.stock.cards = (recDemoState.waste.cards.map Card.make_face_down).take
            (recDemoState.waste.cards.length -
              min recDemoEngine.rules.get_draw_count recDemoState.waste.cards.length) ∧
        st2.waste.cards = ((recDemoState.waste.cards.map Card.make_face_down).drop
            (recDemoState.waste.cards.length -
              min recDemoEngine.rules.get_draw_count recDemoState.waste.cards.length)).map
            Card.make_face_up ∧
        st2.score = recDemoState.score ∧
        st2.moves_count = recDemoState.moves_count + 1 ∧
        st2.piles = recDemoState.piles) :=
  ⟨rfl, rfl, by decide,
    draw_recycle_amended_c5 recDemoEngine recDemoState rfl rfl (by decide)⟩

end Cosin
